import Mathlib

/-!
Verification of the PDF-OCR orchestration service against its specification.

The development shallow-embeds the TypeScript sources
`src/lib/ocr-service.ts`, `src/lib/pdf-processor.ts` and
`src/app/api/ocr/route.ts`:

* JS numbers are modelled as exact rationals (`ℚ`); every arithmetic
  operation performed by the code on these values is addition,
  subtraction, multiplication, division, `Math.max/min/round`, all of
  which are embedded one-for-one.
* JS strings are modelled as Lean `String`s (code points; all concrete
  inputs used below are ASCII, where JS UTF-16 length coincides).
* Each external call (one invocation of the pdf2pic converter, one
  fetch of the recognition API) is a separate oracle lookup, so a call
  can fail on one invocation and succeed on another, exactly as in the
  real system.
* `try`/`catch` blocks are embedded by case analysis on the oracle
  outcome; wall-clock time and the random processing id — which no
  claim mentions — are elided from the result record.
-/

set_option maxRecDepth 100000

/-! ## Generic list/string helpers (kernel-reducible embeddings of JS string ops) -/

/-- Embeds `a.startsWith(b)` for lists: `b` is a leading segment of `a`. -/
def listStartsWith [DecidableEq α] : List α → List α → Bool
  | _, [] => true
  | [], _ :: _ => false
  | a :: as, b :: bs => if a = b then listStartsWith as bs else false

/-- Embeds JS `String.prototype.includes(pat)` (for non-empty `pat`):
some position of `s` starts with `pat`. -/
def listContainsSub [DecidableEq α] (pat : List α) : List α → Bool
  | [] => listStartsWith ([] : List α) pat
  | c :: rest => listStartsWith (c :: rest) pat || listContainsSub pat rest

/-- JS `s.includes(pat)` on strings. -/
def jsIncludes (s pat : String) : Bool :=
  listContainsSub pat.data s.data

/-- JS `Math.min` on (non-NaN) numbers. -/
def jsMin (a b : ℚ) : ℚ := if a ≤ b then a else b

/-- JS `Math.max` on (non-NaN) numbers. -/
def jsMax (a b : ℚ) : ℚ := if a ≤ b then b else a

/-- JS `Math.round`: round half up. -/
def jsRound (q : ℚ) : ℤ := ⌊q + 1/2⌋

/-! ## Character classes of the regexes in `calculateConfidence`

`/[.!?]/` and `/\b[A-Z][a-z]+\b/g` are ASCII-only classes; `\b` is a
word boundary with respect to `\w = [A-Za-z0-9_]`. -/

def isAsciiUpper (c : Char) : Bool := 'A' ≤ c && c ≤ 'Z'

def isAsciiLower (c : Char) : Bool := 'a' ≤ c && c ≤ 'z'

def isWordChar (c : Char) : Bool :=
  isAsciiUpper c || isAsciiLower c || ('0' ≤ c && c ≤ '9') || c = '_'

/-- Maximal runs of word characters of a string, in order.  `acc` is the
current run, reversed. -/
def wordRunsAux : List Char → List Char → List (List Char)
  | acc, [] => if acc.isEmpty then [] else [acc.reverse]
  | acc, c :: rest =>
    if isWordChar c then wordRunsAux (c :: acc) rest
    else if acc.isEmpty then wordRunsAux [] rest
    else acc.reverse :: wordRunsAux [] rest

/-- A whole word-run matches `[A-Z][a-z]+`: an uppercase letter followed
by at least one lowercase letter and nothing else.  A global match of
`\b[A-Z][a-z]+\b` is exactly a maximal word-run of this shape (inside a
longer run the inner `\b` cannot hold, since all run characters are word
characters). -/
def isCapToken : List Char → Bool
  | [] => false
  | c :: rest => isAsciiUpper c && !rest.isEmpty && rest.all isAsciiLower

/-- Number of global matches of `/\b[A-Z][a-z]+\b/g` in `text`. -/
def capTokenCount (text : String) : ℕ :=
  (wordRunsAux [] text.data).countP isCapToken

/-- Whether `/[.!?]/g` matches, i.e. some sentence-terminal punctuation
character occurs in `text`. -/
def hasSentencePunct (text : String) : Bool :=
  text.data.any fun c => c = '.' || c = '!' || c = '?'

/-- JS `text.split(sep).length` for a one-character separator equals the
number of separator occurrences plus one. -/
def jsSplitCount (text : String) (sep : Char) : ℕ :=
  text.data.countP (fun c => c = sep) + 1

/-! ## `OCRService.calculateConfidence` (ocr-service.ts, lines 167–184)

The two conditions built with `?.length || 0 > 3` (resp. `|| 0 > 0`)
parse in JavaScript as `(match?.length) || (0 > 3)`: the `if` takes the
branch exactly when the match count is at least one, because `0 > 3`
(resp. `0 > 0`) is `false` and a non-zero count is truthy. -/

def calculateConfidence (text : String) : ℚ :=
  let c0 : ℚ := 7/10
  let c1 := if text.length > 50 then c0 + 1/10 else c0
  let c2 := if hasSentencePunct text then c1 + 1/20 else c1
  let c3 := if 1 ≤ capTokenCount text then c2 + 1/20 else c2
  let c4 := if jsSplitCount text '\n' > 2 then c3 + 1/20 else c3
  let c5 := if jsIncludes text "[Error" then 0 else c4
  let c6 := if jsIncludes text "[unclear]" || jsIncludes text "[?]" then c5 - 1/5 else c5
  let c7 := if text.length < 20 then c6 - 1/5 else c6
  let c8 := if jsIncludes text "***" || jsIncludes text "???" then c7 - 1/10 else c7
  jsMax 0 (jsMin 1 c8)

/-- Modelled from the spec's words (§4.1 "Confidence heuristic"): start
at 0.7; +0.1 if text length > 50; +0.05 if any sentence-terminal
punctuation is present; +0.05 if more than 3 capitalized-word tokens
appear; +0.05 if text has more than 2 lines; force to 0 on the literal
marker; −0.2 on an unclear marker; −0.2 if length < 20; −0.1 on long
runs of asterisks or question marks; clamp to [0,1]. -/
def specConfidence (text : String) : ℚ :=
  let c0 : ℚ := 7/10
  let c1 := if text.length > 50 then c0 + 1/10 else c0
  let c2 := if hasSentencePunct text then c1 + 1/20 else c1
  let c3 := if 3 < capTokenCount text then c2 + 1/20 else c2
  let c4 := if jsSplitCount text '\n' > 2 then c3 + 1/20 else c3
  let c5 := if jsIncludes text "[Error" then 0 else c4
  let c6 := if jsIncludes text "[unclear]" || jsIncludes text "[?]" then c5 - 1/5 else c5
  let c7 := if text.length < 20 then c6 - 1/5 else c6
  let c8 := if jsIncludes text "***" || jsIncludes text "???" then c7 - 1/10 else c7
  jsMax 0 (jsMin 1 c8)

/-- The spec heuristic amended at the single diverging condition: the
capitalized-word bonus is granted when at least one capitalized-word
token appears (instead of more than three). -/
def specConfidenceAmended (text : String) : ℚ :=
  let c0 : ℚ := 7/10
  let c1 := if text.length > 50 then c0 + 1/10 else c0
  let c2 := if hasSentencePunct text then c1 + 1/20 else c1
  let c3 := if 1 ≤ capTokenCount text then c2 + 1/20 else c2
  let c4 := if jsSplitCount text '\n' > 2 then c3 + 1/20 else c3
  let c5 := if jsIncludes text "[Error" then 0 else c4
  let c6 := if jsIncludes text "[unclear]" || jsIncludes text "[?]" then c5 - 1/5 else c5
  let c7 := if text.length < 20 then c6 - 1/5 else c6
  let c8 := if jsIncludes text "***" || jsIncludes text "???" then c7 - 1/10 else c7
  jsMax 0 (jsMin 1 c8)

/-! ## Recognition client: `OCRService.processImage` (ocr-service.ts, lines 26–102)

One invocation of the remote recognition API is summarised by a
`FetchOutcome`: the `fetch` promise rejects (`transportError`), the
response status is not ok (the code then throws
`OCR API request failed: <status> <statusText>`), the response body is
not valid JSON so `response.json()` rejects (`okBadJson`), or the body
parses and `data.choices?.[0]?.message?.content` is either present
(`okJson (some s)`) or absent (`okJson none`, embedding `?.` chains and
`|| ''` yielding the empty string).  The surrounding `try`/`catch`
makes `processImage` a total function of this outcome. -/

structure OCRPage where
  pageNumber : ℕ
  extractedText : String
  confidence : ℚ
deriving DecidableEq, Repr

inductive FetchOutcome where
  | transportError (msg : String)
  | httpError (status : ℕ) (statusText : String)
  | okBadJson (msg : String)
  | okJson (content : Option String)
deriving DecidableEq, Repr

/-- JS whitespace test for the characters relevant to `String.prototype.trim`
(ASCII fragment; all concrete inputs below are ASCII). -/
def isJsSpace (c : Char) : Bool :=
  c = ' ' || c = '\t' || c = '\n' || c = '\r' || c = '\x0b' || c = '\x0c'

/-- JS `s.trim()`. -/
def jsTrim (s : String) : String :=
  ⟨((s.data.dropWhile isJsSpace).reverse.dropWhile isJsSpace).reverse⟩

/-- The page result built in the `catch` branch of `processImage`. -/
def ocrErrorPage (pageNumber : ℕ) (msg : String) : OCRPage :=
  { pageNumber
    extractedText := "[Error processing page " ++ toString pageNumber ++ ": " ++ msg ++ "]"
    confidence := 0 }

def processImage (outcome : FetchOutcome) (pageNumber : ℕ) : OCRPage :=
  match outcome with
  | .okJson content =>
      let extractedText := content.getD ""
      { pageNumber
        extractedText := jsTrim extractedText
        confidence := calculateConfidence extractedText }
  | .transportError msg => ocrErrorPage pageNumber msg
  | .httpError status statusText =>
      ocrErrorPage pageNumber ("OCR API request failed: " ++ toString status ++ " " ++ statusText)
  | .okBadJson msg => ocrErrorPage pageNumber msg

/-! ## Batch orchestrator: `OCRService.processPages` (ocr-service.ts, lines 104–165)

An input page is represented by its page number; the image buffer only
feeds the recognition call, whose outcome the oracle
`oc : ℕ → FetchOutcome` gives per page number.  The wall-clock
`processingTime` and the random `id` are elided (no claim mentions
them).  Pages are processed in slices of `batchSize = 3`; `Promise.all`
resolves with the batch's results in the batch's order, so the
accumulated `pages` array lists results in input order regardless of
the order in which the recognition calls complete.  The recursion
carries structural fuel (instantiated with the list length) so that it
is kernel-reducible. -/

structure OCRMetadata where
  totalPages : ℕ
  averageConfidence : ℚ
deriving DecidableEq, Repr

structure OCRResult where
  pages : List OCRPage
  fullText : String
  metadata : OCRMetadata
deriving DecidableEq, Repr

def pageBreak : String := "\n\n--- Page Break ---\n\n"

def processBatches (oc : ℕ → FetchOutcome) : ℕ → List ℕ → List OCRPage
  | _, [] => []
  | 0, _ => []
  | fuel + 1, l =>
    ((l.take 3).map fun n => processImage (oc n) n) ++ processBatches oc fuel (l.drop 3)

/-- The comparator `(a, b) => a.pageNumber - b.pageNumber` orders pages
by ascending page number. -/
def pageLE (a b : OCRPage) : Prop := a.pageNumber ≤ b.pageNumber

/-- Strict ordering by page number. -/
def pageLT (a b : OCRPage) : Prop := a.pageNumber < b.pageNumber

instance : DecidableRel pageLE :=
  fun a b => inferInstanceAs (Decidable (a.pageNumber ≤ b.pageNumber))

instance : IsTotal OCRPage pageLE := ⟨fun a b => Nat.le_total a.pageNumber b.pageNumber⟩

instance : IsTrans OCRPage pageLE := ⟨fun _ _ _ h1 h2 => Nat.le_trans h1 h2⟩

instance : IsAntisymm OCRPage pageLT := ⟨fun _ _ h1 h2 => absurd h2 (Nat.lt_asymm h1)⟩

/-- JS `Array.prototype.sort` is required to be stable; a stable sort
by page number is embedded as insertion sort. -/
def sortPages (l : List OCRPage) : List OCRPage := List.insertionSort pageLE l

/-- JS `array.join(sep)`. -/
def jsJoin (sep : String) : List String → String
  | [] => ""
  | [s] => s
  | s :: rest => s ++ sep ++ jsJoin sep rest

def processPages (input : List ℕ) (oc : ℕ → FetchOutcome) : OCRResult :=
  let pages := processBatches oc input.length input
  let sorted := sortPages pages
  { pages := sorted
    fullText := jsJoin pageBreak (sorted.map OCRPage.extractedText)
    metadata :=
      { totalPages := sorted.length
        averageConfidence :=
          sorted.foldl (fun sum page => sum + page.confidence) 0 / (sorted.length : ℚ) } }

/-! ## Page rasterizer: `PDFProcessor` (pdf-processor.ts)

One invocation of the pdf2pic converter either rejects (`throws`),
resolves without a buffer (`noBuffer`), or resolves with a page image
(`ok`; the image contents are irrelevant to every claim, so a converted
page is represented by its page number).  `convertPDFToImages` performs
two rounds of conversion calls — the probing round (line 31 for page 1
and the page-count loop of lines 38–50) and the batched `processPage`
round (lines 58–71) — which are separate invocations of the external
library, so each round has its own oracle (`cp` for probing, `cr` for
the batched round).  `optimizeImageForOCR` never rejects (it falls back
to the original buffer), so `processPage` returns `none` exactly when
its conversion call rejects or yields no buffer. -/

inductive ConvertResult where
  | throws (msg : String)
  | noBuffer
  | ok
deriving DecidableEq, Repr

/-- The page-count loop `for (i = 2; i <= 500; i++)`: a rejected
conversion breaks the loop, any resolved result (with or without a
buffer) counts page `i`.  Structural fuel 499 covers the iterations
`i = 2 … 500` exactly. -/
def probeFrom (cp : ℕ → ConvertResult) : ℕ → ℕ → ℕ → ℕ
  | 0, _, acc => acc
  | fuel + 1, i, acc =>
    if i ≤ 500 then
      match cp i with
      | .throws _ => acc
      | _ => probeFrom cp fuel (i + 1) i
    else acc

def probe (cp : ℕ → ConvertResult) : ℕ := probeFrom cp 499 2 1

def processPage (cr : ℕ → ConvertResult) (pageNumber : ℕ) : Option ℕ :=
  match cr pageNumber with
  | .ok => some pageNumber
  | _ => none

/-- Batches of five pages are converted with `Promise.all` (order
preserving), failed pages are filtered out per batch, and the
accumulated list is finally sorted: the result is the order-preserving
`filterMap` of `processPage` over pages `1 … totalPages`, sorted. -/
def rasterPages (cp cr : ℕ → ConvertResult) : List ℕ :=
  List.insertionSort (· ≤ ·) ((List.range' 1 (probe cp)).filterMap (processPage cr))

def convertPDFToImages (cp cr : ℕ → ConvertResult) : Except String (List ℕ) :=
  match cp 1 with
  | .throws msg => .error ("Failed to process PDF: " ++ msg)
  | .noBuffer => .error "Failed to process PDF: Failed to convert first page"
  | .ok => .ok (rasterPages cp cr)

/-- The five magic bytes of `'%PDF-'`. -/
def pdfMagic : List UInt8 := [0x25, 0x50, 0x44, 0x46, 0x2D]

/-- `PDFProcessor.validatePDF` (pdf-processor.ts, lines 132–157):
`none` means valid, `some msg` the reported error.  The source decodes
`buffer.subarray(0, 8)` to a string and tests `startsWith('%PDF-')`;
since `'%PDF-'` is ASCII and UTF-8 decoding is one-to-one on ASCII
prefixes, that test holds exactly when the first eight bytes start with
the five magic bytes.  The surrounding `try`/`catch` is dead (no
operation in the body throws) and is elided. -/
def validatePDF (bytes : List UInt8) : Option String :=
  if !listStartsWith (bytes.take 8) pdfMagic then some "Invalid PDF format"
  else if bytes.length < 1024 then some "PDF file too small"
  else if bytes.length > 50 * 1024 * 1024 then some "PDF file too large (max 50MB)"
  else none

/-! ## Progress events of one request (route.ts together with the two
per-page loops)

`processOCR` writes one `data: …\n\n` frame per event.  A progress
frame carries `Math.round` of the callback's percentage (the initial
frame is the literal 0); the human-readable `step` label is elided —
no claim depends on it.  The percentage sequences are determined by
the page counts:

* `convertPDFToImages` emits 10, 20 (before the first conversion),
  then — once the count `N` is probed — 30, one value
  `30 + (i / N) * 50` after each batch starting at page
  `i = 1, 6, 11, …  ≤ N`, and finally 85;
* `processPages` over `M` pages emits 5, then `5 + (i / M) * 80` once
  per page of the batch starting at index `i = 0, 3, 6, … < M`
  (the batch's pages all report the start index), then 90 and 100.

Both loops advance by a fixed stride, so structural fuel `N` (resp.
`M`) bounds the iteration count. -/

def rasterVals (N : ℕ) : ℕ → ℕ → List ℚ
  | 0, _ => []
  | fuel + 1, i =>
    if i ≤ N then (30 + ((i : ℚ) / (N : ℚ)) * 50) :: rasterVals N fuel (i + 5) else []

def rasterProgress (N : ℕ) : List ℚ := rasterVals N N 1

def convertEventsOk (N : ℕ) : List ℚ := [10, 20, 30] ++ rasterProgress N ++ [85]

def recogVals (M : ℕ) : ℕ → ℕ → List ℚ
  | 0, _ => []
  | fuel + 1, i =>
    if i < M then
      List.replicate (min 3 (M - i)) (5 + ((i : ℚ) / (M : ℚ)) * 80) ++ recogVals M fuel (i + 3)
    else []

def recogProgress (M : ℕ) : List ℚ := recogVals M M 0

def processPagesProgress (M : ℕ) : List ℚ := [5] ++ recogProgress M ++ [90, 100]

inductive Event where
  | progress (percent : ℤ)
  | complete (result : OCRResult)
  | error (message : String)
deriving DecidableEq, Repr

def progressFrames (l : List ℚ) : List Event :=
  l.map fun q => Event.progress (jsRound q)

def isTerminal : Event → Bool
  | .complete _ => true
  | .error _ => true
  | .progress _ => false

def isCompleteEvent : Event → Bool
  | .complete _ => true
  | _ => false

def progressValues (l : List Event) : List ℤ :=
  l.filterMap fun e =>
    match e with
    | .progress p => some p
    | _ => none

/-- `processOCR` (route.ts, lines 80–118): the full event stream of one
request whose stream opened.  After the stream's last listed event the
writer is closed in every branch (lines 99, 110, 116), so the returned
list is the complete stream. -/
def processOCR (cp cr : ℕ → ConvertResult) (oc : ℕ → FetchOutcome) : List Event :=
  Event.progress 0 ::
    match convertPDFToImages cp cr with
    | .error msg => progressFrames [10, 20] ++ [Event.error msg]
    | .ok pages =>
      if pages.isEmpty then
        progressFrames (convertEventsOk (probe cp)) ++
          [Event.error "No pages could be processed from the PDF"]
      else
        progressFrames (convertEventsOk (probe cp)) ++
          progressFrames (processPagesProgress pages.length) ++
          [Event.complete (processPages pages oc)]

/-! ## HTTP surface: `POST` (route.ts, lines 8–78)

`file.size` equals the byte length of the uploaded data, and the buffer
validated by `validatePDF` holds those same bytes. -/

structure UploadRequest where
  hasFile : Bool
  fileType : String
  bytes : List UInt8
deriving DecidableEq, Repr

inductive PostResponse where
  | badRequest (error : String)
  | stream (events : List Event)
deriving DecidableEq, Repr

def POST (req : UploadRequest) (cp cr : ℕ → ConvertResult) (oc : ℕ → FetchOutcome) :
    PostResponse :=
  if !req.hasFile then .badRequest "No PDF file provided"
  else if req.fileType ≠ "application/pdf" then .badRequest "Only PDF files are supported"
  else if req.bytes.length > 50 * 1024 * 1024 then .badRequest "File size exceeds 50MB limit"
  else
    match validatePDF req.bytes with
    | some err => .badRequest err
    | none => .stream (processOCR cp cr oc)

/-- Probing oracle for the C10 instance: pages 1–3 convert, page 4
signals end of document. -/
def cpC10 : ℕ → ConvertResult :=
  fun i => if i ≤ 3 then ConvertResult.ok else ConvertResult.throws "End of document"

/-- Batched-round oracle for the C10 instance: page 2's conversion
returns no buffer, every other page converts. -/
def crC10 : ℕ → ConvertResult :=
  fun i => if i = 2 then ConvertResult.noBuffer else ConvertResult.ok

instance {ε α : Type _} [DecidableEq ε] [DecidableEq α] : DecidableEq (Except ε α) := fun a b =>
  match a, b with
  | .error x, .error y =>
    if h : x = y then isTrue (by rw [h]) else isFalse (fun hc => h (by cases hc; rfl))
  | .ok x, .ok y =>
    if h : x = y then isTrue (by rw [h]) else isFalse (fun hc => h (by cases hc; rfl))
  | .error _, .ok _ => isFalse (fun hc => by cases hc)
  | .ok _, .error _ => isFalse (fun hc => by cases hc)

/-- Test for a progress frame carrying exactly 100 percent. -/
def isProgress100 : Event → Bool
  | .progress p => p == 100
  | _ => false

/-- C5 instance: page 1 probes fine but every batched conversion
returns no buffer, so rasterization yields zero pages. -/
def cpC5 : ℕ → ConvertResult :=
  fun i => if i = 1 then ConvertResult.ok else ConvertResult.throws "End of document"

def crC5 : ℕ → ConvertResult := fun _ => ConvertResult.noBuffer

def ocC5 : ℕ → FetchOutcome := fun _ => FetchOutcome.okJson (some "Recognized text")

/-- C2 instance: a one-page document whose page converts and whose
recognition call succeeds. -/
def cpC2 : ℕ → ConvertResult :=
  fun i => if i = 1 then ConvertResult.ok else ConvertResult.throws "End of document"

def crC2 : ℕ → ConvertResult := fun _ => ConvertResult.ok

def ocC2 : ℕ → FetchOutcome := fun _ => FetchOutcome.okJson (some "Recognized text")

/-! ## Theorems -/

theorem jsMax_jsMin_clamp (c : ℚ) : 0 ≤ jsMax 0 (jsMin 1 c) ∧ jsMax 0 (jsMin 1 c) ≤ 1 := by
  unfold jsMax jsMin
  split_ifs with h1 h2 h2 <;> constructor <;> linarith

/-- C1 (counterexample): on the 26-character text
`"aaaaaaaaaaaaaaaaaaaa Hello"` — one capitalized-word token, no
punctuation, one line, no markers — the code yields 0.75 (the
capitalized-word bonus fires for a single token) while the spec's
reference heuristic yields 0.7. -/
theorem claimC1_counterexample :
    calculateConfidence "aaaaaaaaaaaaaaaaaaaa Hello" ≠
      specConfidence "aaaaaaaaaaaaaaaaaaaa Hello" := by
  have hp : hasSentencePunct "aaaaaaaaaaaaaaaaaaaa Hello" = false := by decide
  have hc : capTokenCount "aaaaaaaaaaaaaaaaaaaa Hello" = 1 := by decide
  have hl : "aaaaaaaaaaaaaaaaaaaa Hello".length = 26 := by decide
  have hs : jsSplitCount "aaaaaaaaaaaaaaaaaaaa Hello" '\n' = 1 := by decide
  have h1 : jsIncludes "aaaaaaaaaaaaaaaaaaaa Hello" "[Error" = false := by decide
  have h2 : jsIncludes "aaaaaaaaaaaaaaaaaaaa Hello" "[unclear]" = false := by decide
  have h3 : jsIncludes "aaaaaaaaaaaaaaaaaaaa Hello" "[?]" = false := by decide
  have h4 : jsIncludes "aaaaaaaaaaaaaaaaaaaa Hello" "***" = false := by decide
  have h5 : jsIncludes "aaaaaaaaaaaaaaaaaaaa Hello" "???" = false := by decide
  simp only [calculateConfidence, specConfidence, hp, hc, hl, hs, h1, h2, h3, h4, h5]
  norm_num [jsMax, jsMin]

/-- C1 (amended): `calculateConfidence` computes the spec heuristic with
the capitalized-word condition weakened to "at least one capitalized
token" (a consequence of `?.length || 0 > 3` parsing as
`(?.length) || (0 > 3)`), and its value is always clamped into [0,1]. -/
theorem claimC1 (text : String) :
    calculateConfidence text = specConfidenceAmended text ∧
      0 ≤ calculateConfidence text ∧ calculateConfidence text ≤ 1 := by
  refine ⟨?_, ?_, ?_⟩
  · rfl
  · exact (jsMax_jsMin_clamp _).1
  · exact (jsMax_jsMin_clamp _).2

theorem listStartsWith_nil [DecidableEq α] (l : List α) :
    listStartsWith l ([] : List α) = true := by
  cases l <;> rfl

theorem listStartsWith_append [DecidableEq α] :
    ∀ (p l r : List α), listStartsWith l p = true → listStartsWith (l ++ r) p = true
  | [], l, r, _ => listStartsWith_nil (l ++ r)
  | _ :: _, [], _, h => by cases h
  | b :: bs, a :: as, r, h => by
    simp only [listStartsWith] at h ⊢
    split at h
    · next heq => simpa [heq] using listStartsWith_append bs as r h
    · cases h

theorem listContainsSub_of_listStartsWith [DecidableEq α] (p l : List α)
    (h : listStartsWith l p = true) : listContainsSub p l = true := by
  cases l with
  | nil => simpa [listContainsSub] using h
  | cons c rest => simp [listContainsSub, h]

/-- C3 (counterexample): a 200 response whose body is valid JSON but
lacks the expected `choices[0].message.content` field (e.g. `{}`) is a
malformed response, yet `processImage` does not produce the error
placeholder: it returns the empty extracted text with heuristic
confidence 0.5 rather than 0. -/
theorem claimC3_counterexample :
    (processImage (FetchOutcome.okJson none) 1).confidence ≠ 0 ∧
      jsIncludes (processImage (FetchOutcome.okJson none) 1).extractedText
        "[Error processing page" = false := by
  constructor
  · have hp : hasSentencePunct "" = false := by decide
    have hc : capTokenCount "" = 0 := by decide
    have hl : ("" : String).length = 0 := by decide
    have hs : jsSplitCount "" '\n' = 1 := by decide
    have h1 : jsIncludes "" "[Error" = false := by decide
    have h2 : jsIncludes "" "[unclear]" = false := by decide
    have h3 : jsIncludes "" "[?]" = false := by decide
    have h4 : jsIncludes "" "***" = false := by decide
    have h5 : jsIncludes "" "???" = false := by decide
    simp only [processImage, Option.getD, calculateConfidence, hp, hc, hl, hs, h1, h2, h3, h4, h5]
    norm_num [jsMax, jsMin]
  · decide

/-- C3 (amended): when the recognition call fails with a transport
error, a non-success HTTP status, or a response body that is not valid
JSON, `processImage` returns (it never throws — it is total by
construction) the placeholder `PageResult` whose text is
`[Error processing page <n>: <message>]` — which contains the literal
substring `[Error processing page` — and whose confidence is 0.
A syntactically valid JSON response missing the expected content
fields instead yields the empty extracted text with heuristically
computed confidence. -/
theorem claimC3 (n : ℕ) (msg : String) (status : ℕ) (statusText : String)
    (content : Option String) :
    processImage (.transportError msg) n = ocrErrorPage n msg ∧
    processImage (.httpError status statusText) n =
      ocrErrorPage n ("OCR API request failed: " ++ toString status ++ " " ++ statusText) ∧
    processImage (.okBadJson msg) n = ocrErrorPage n msg ∧
    (ocrErrorPage n msg).confidence = 0 ∧
    jsIncludes (ocrErrorPage n msg).extractedText "[Error processing page" = true ∧
    processImage (.okJson content) n =
      { pageNumber := n
        extractedText := jsTrim (content.getD "")
        confidence := calculateConfidence (content.getD "") } := by
  refine ⟨rfl, rfl, rfl, rfl, ?_, rfl⟩
  unfold jsIncludes ocrErrorPage
  apply listContainsSub_of_listStartsWith
  have hdata : ("[Error processing page " ++ toString n ++ ": " ++ msg ++ "]").data =
      "[Error processing page ".data ++ ((toString n ++ ": " ++ msg ++ "]").data) := by
    simp [String.data_append, List.append_assoc]
  rw [hdata]
  exact listStartsWith_append _ _ _ (by decide)

theorem processImage_pageNumber (o : FetchOutcome) (n : ℕ) :
    (processImage o n).pageNumber = n := by
  cases o <;> rfl

theorem processBatches_eq_map (oc : ℕ → FetchOutcome) :
    ∀ (fuel : ℕ) (l : List ℕ), l.length ≤ fuel →
      processBatches oc fuel l = l.map fun n => processImage (oc n) n
  | fuel, [], _ => by cases fuel <;> rfl
  | 0, n :: l, h => by simp at h
  | fuel + 1, n :: l, h => by
    have h' : l.length + 1 ≤ fuel + 1 := by simpa using h
    have hd : ((n :: l).drop 3).length ≤ fuel := by
      simp only [List.length_drop, List.length_cons]
      omega
    calc processBatches oc (fuel + 1) (n :: l)
        = ((n :: l).take 3).map (fun m => processImage (oc m) m) ++
            processBatches oc fuel ((n :: l).drop 3) := rfl
      _ = ((n :: l).take 3).map (fun m => processImage (oc m) m) ++
            ((n :: l).drop 3).map (fun m => processImage (oc m) m) :=
          by rw [processBatches_eq_map oc fuel _ hd]
      _ = (n :: l).map fun m => processImage (oc m) m := by
          rw [← List.map_append, List.take_append_drop]

theorem sortPages_perm (l : List OCRPage) : (sortPages l).Perm l :=
  List.perm_insertionSort pageLE l

theorem sortPages_sorted (l : List OCRPage) : (sortPages l).Sorted pageLE :=
  List.sorted_insertionSort pageLE l

theorem pairwise_lt_of_sorted_nodup (l : List OCRPage) (hs : l.Sorted pageLE)
    (hn : (l.map OCRPage.pageNumber).Nodup) : l.Pairwise pageLT := by
  have hne : l.Pairwise fun a b => a.pageNumber ≠ b.pageNumber := List.pairwise_map.mp hn
  exact (List.Pairwise.and hs hne).imp fun h => Nat.lt_of_le_of_ne h.1 h.2

theorem foldl_add_confidence (l : List OCRPage) :
    ∀ init : ℚ, l.foldl (fun sum page => sum + page.confidence) init =
      init + (l.map OCRPage.confidence).sum := by
  induction l with
  | nil => intro init; simp
  | cons p l ih =>
    intro init
    simp only [List.foldl_cons, List.map_cons, List.sum_cons, ih (init + p.confidence)]
    ring

theorem processPages_keys (input : List ℕ) (oc : ℕ → FetchOutcome) :
    ((processPages input oc).pages.map OCRPage.pageNumber).Perm input := by
  simp only [processPages]
  refine ((sortPages_perm _).map OCRPage.pageNumber).trans ?_
  rw [processBatches_eq_map oc input.length input (le_refl _), List.map_map]
  have : (OCRPage.pageNumber ∘ fun n => processImage (oc n) n) = id := by
    funext n; simp [processImage_pageNumber]
  rw [this, List.map_id]

/-- C4: on pipeline inputs (whose page numbers are pairwise distinct,
as the rasterizer produces them), the result pages are sorted strictly
ascending by page number; `fullText` joins the sorted pages' texts with
the fixed separator; the result is invariant under any permutation of
the input (hence under any completion order of recognition calls); and
a three-page result's `fullText` is the three texts with the page-break
marker between consecutive pages, i.e. the marker occurs twice. -/
theorem claimC4 (input : List ℕ) (oc : ℕ → FetchOutcome)
    (hnd : input.Nodup) (hne : input ≠ []) :
    (processPages input oc).pages.Pairwise pageLT ∧
    (processPages input oc).fullText =
      jsJoin pageBreak ((processPages input oc).pages.map OCRPage.extractedText) ∧
    (∀ input' : List ℕ, input'.Perm input → processPages input' oc = processPages input oc) ∧
    ∀ p1 p2 p3 : OCRPage, (processPages input oc).pages = [p1, p2, p3] →
      (processPages input oc).fullText =
        p1.extractedText ++ pageBreak ++ (p2.extractedText ++ pageBreak ++ p3.extractedText) := by
  have hpair : ∀ m : List ℕ, m.Nodup → (processPages m oc).pages.Pairwise pageLT := by
    intro m hm
    apply pairwise_lt_of_sorted_nodup _ (by simp only [processPages]; exact sortPages_sorted _)
    exact ((processPages_keys m oc).nodup_iff).mpr hm
  refine ⟨hpair input hnd, rfl, ?_, ?_⟩
  · intro input' hperm
    have hnd' : input'.Nodup := (hperm.nodup_iff).mpr hnd
    have hsorteq : sortPages (processBatches oc input'.length input') =
        sortPages (processBatches oc input.length input) := by
      apply List.eq_of_perm_of_sorted (r := pageLT)
      · have h3 : (processBatches oc input'.length input').Perm
            (processBatches oc input.length input) := by
          rw [processBatches_eq_map oc input'.length input' (le_refl _),
            processBatches_eq_map oc input.length input (le_refl _)]
          exact hperm.map _
        exact ((sortPages_perm _).trans h3).trans (sortPages_perm _).symm
      · exact hpair input' hnd'
      · exact hpair input hnd
    simp only [processPages]
    rw [hsorteq]
  · intro p1 p2 p3 hp
    have : (processPages input oc).fullText =
        jsJoin pageBreak ((processPages input oc).pages.map OCRPage.extractedText) := rfl
    rw [this, hp]
    simp only [List.map_cons, List.map_nil, jsJoin]

/-- C4 (witness): the three-page input [2, 1, 3]. -/
theorem claimC4_witness :
    ([2, 1, 3] : List ℕ).Nodup ∧ ([2, 1, 3] : List ℕ) ≠ [] ∧
    ((processPages [2, 1, 3] (fun _ => FetchOutcome.okJson (some "text"))).pages.Pairwise pageLT ∧
    (processPages [2, 1, 3] (fun _ => FetchOutcome.okJson (some "text"))).fullText =
      jsJoin pageBreak
        ((processPages [2, 1, 3] (fun _ => FetchOutcome.okJson (some "text"))).pages.map
          OCRPage.extractedText) ∧
    (∀ input' : List ℕ, input'.Perm [2, 1, 3] →
      processPages input' (fun _ => FetchOutcome.okJson (some "text")) =
        processPages [2, 1, 3] (fun _ => FetchOutcome.okJson (some "text"))) ∧
    ∀ p1 p2 p3 : OCRPage,
      (processPages [2, 1, 3] (fun _ => FetchOutcome.okJson (some "text"))).pages = [p1, p2, p3] →
      (processPages [2, 1, 3] (fun _ => FetchOutcome.okJson (some "text"))).fullText =
        p1.extractedText ++ pageBreak ++ (p2.extractedText ++ pageBreak ++ p3.extractedText)) :=
  ⟨by decide, by decide, claimC4 [2, 1, 3] _ (by decide) (by decide)⟩

/-- C7: for a non-empty input, `metadata.averageConfidence` is exactly
the arithmetic mean of the result pages' confidence scores (the model
computes in exact rational arithmetic, so "within floating-point
tolerance" holds with tolerance zero). -/
theorem claimC7 (input : List ℕ) (oc : ℕ → FetchOutcome) (hne : input ≠ []) :
    (processPages input oc).metadata.averageConfidence =
      ((processPages input oc).pages.map OCRPage.confidence).sum /
        ((processPages input oc).pages.length : ℚ) := by
  simp only [processPages]
  rw [foldl_add_confidence]
  ring_nf

/-- C7 (witness): the two-page input [1, 2]. -/
theorem claimC7_witness :
    ([1, 2] : List ℕ) ≠ [] ∧
    (processPages [1, 2] (fun _ => FetchOutcome.okJson none)).metadata.averageConfidence =
      ((processPages [1, 2] (fun _ => FetchOutcome.okJson none)).pages.map
          OCRPage.confidence).sum /
        ((processPages [1, 2] (fun _ => FetchOutcome.okJson none)).pages.length : ℚ) :=
  ⟨by decide, claimC7 [1, 2] _ (by decide)⟩

theorem listStartsWith_iff_take [DecidableEq α] :
    ∀ (p l : List α), listStartsWith l p = true ↔ l.take p.length = p
  | [], l => by simp [listStartsWith_nil]
  | b :: bs, [] => by simp [listStartsWith]
  | b :: bs, a :: as => by
    simp only [listStartsWith, List.length_cons, List.take_succ_cons, List.cons.injEq]
    by_cases hab : a = b
    · subst hab
      simp [listStartsWith_iff_take bs as]
    · simp [hab, Ne.symm hab]

/-- C8: a request whose file has a wrong content type, or exceeds the
50 MB bound, or whose first five bytes are not the PDF magic marker, is
answered with a 400 JSON error body; no event stream is opened and no
rasterization is attempted (the `badRequest` response carries no
events, and neither converter oracle is consulted). -/
theorem claimC8 (req : UploadRequest) (cp cr : ℕ → ConvertResult) (oc : ℕ → FetchOutcome)
    (h : req.fileType ≠ "application/pdf" ∨ 50 * 1024 * 1024 < req.bytes.length ∨
      req.bytes.take 5 ≠ pdfMagic) :
    ∃ msg, POST req cp cr oc = PostResponse.badRequest msg := by
  unfold POST
  by_cases hf : req.hasFile
  case neg => exact ⟨"No PDF file provided", by simp [hf]⟩
  by_cases ht : req.fileType = "application/pdf"
  case neg => exact ⟨"Only PDF files are supported", by simp [hf, ht]⟩
  by_cases hs : req.bytes.length > 50 * 1024 * 1024
  case pos => exact ⟨"File size exceeds 50MB limit", by simp [hf, ht, hs]⟩
  have hm : req.bytes.take 5 ≠ pdfMagic := by
    rcases h with h | h | h
    · exact absurd ht h
    · exact absurd h (by omega)
    · exact h
  have hsw : listStartsWith (req.bytes.take 8) pdfMagic = false := by
    rw [Bool.eq_false_iff]
    intro hc
    apply hm
    have := (listStartsWith_iff_take pdfMagic (req.bytes.take 8)).mp hc
    rwa [List.take_take, show min pdfMagic.length 8 = 5 from rfl] at this
  have hv : validatePDF req.bytes = some "Invalid PDF format" := by
    unfold validatePDF
    rw [hsw]
    rfl
  exact ⟨"Invalid PDF format", by simp [hf, ht, hs, hv]⟩

/-- C8 (witness): an upload with content type `text/plain`. -/
theorem claimC8_witness :
    (({ hasFile := true, fileType := "text/plain", bytes := [] } :
        UploadRequest).fileType ≠ "application/pdf" ∨
      50 * 1024 * 1024 <
        ({ hasFile := true, fileType := "text/plain", bytes := [] } :
          UploadRequest).bytes.length ∨
      ({ hasFile := true, fileType := "text/plain", bytes := [] } :
        UploadRequest).bytes.take 5 ≠ pdfMagic) ∧
    ∃ msg, POST { hasFile := true, fileType := "text/plain", bytes := [] }
        (fun _ => ConvertResult.ok) (fun _ => ConvertResult.ok)
        (fun _ => FetchOutcome.okJson none) = PostResponse.badRequest msg :=
  ⟨by left; decide,
   claimC8 _ _ _ _ (by left; decide)⟩

/-- C9: a buffer that does start with `%PDF-` but is shorter than 1024
bytes fails validation with `PDF file too small`, and the route rejects
the upload with a 400 — a lower size bound stated nowhere in the spec,
which only gives the 50 MB upper bound. -/
theorem claimC9 (bytes : List UInt8) (hmagic : bytes.take 5 = pdfMagic)
    (hsmall : bytes.length < 1024) :
    validatePDF bytes = some "PDF file too small" ∧
    ∀ (cp cr : ℕ → ConvertResult) (oc : ℕ → FetchOutcome),
      POST { hasFile := true, fileType := "application/pdf", bytes := bytes } cp cr oc =
        PostResponse.badRequest "PDF file too small" := by
  have hsw : listStartsWith (bytes.take 8) pdfMagic = true := by
    rw [listStartsWith_iff_take, List.take_take,
      show min pdfMagic.length 8 = 5 from rfl]
    exact hmagic
  have hv : validatePDF bytes = some "PDF file too small" := by
    unfold validatePDF
    rw [hsw]
    simp [hsmall]
  refine ⟨hv, fun cp cr oc => ?_⟩
  unfold POST
  simp [hv, show ¬ (50 * 1024 * 1024 < bytes.length) from by omega]

/-- C9 (witness): the five magic bytes alone form a 5-byte buffer. -/
theorem claimC9_witness :
    pdfMagic.take 5 = pdfMagic ∧ pdfMagic.length < 1024 ∧
    (validatePDF pdfMagic = some "PDF file too small" ∧
    ∀ (cp cr : ℕ → ConvertResult) (oc : ℕ → FetchOutcome),
      POST { hasFile := true, fileType := "application/pdf", bytes := pdfMagic } cp cr oc =
        PostResponse.badRequest "PDF file too small") :=
  ⟨by decide, by decide, claimC9 pdfMagic (by decide) (by decide)⟩

/-- C10: rasterization failure handling is asymmetric.
`convertPDFToImages` throws exactly when the initial conversion of page
1 fails (rejects or yields no buffer); a failed conversion of any page
in the batched round merely makes `processPage` return `null`, and the
page is silently dropped from the returned sequence, whose page numbers
may therefore be non-contiguous — witnessed by an instance returning
pages `[1, 3]`. -/
theorem claimC10 (cp cr : ℕ → ConvertResult) :
    ((convertPDFToImages cp cr).isOk = true ↔ cp 1 = ConvertResult.ok) ∧
    (∀ (j : ℕ) (ps : List ℕ), convertPDFToImages cp cr = Except.ok ps →
      cr j ≠ ConvertResult.ok → j ∉ ps) ∧
    convertPDFToImages cpC10 crC10 = Except.ok [1, 3] := by
  refine ⟨?_, ?_, by decide⟩
  · unfold convertPDFToImages
    cases h : cp 1 <;> simp [Except.isOk, Except.toBool, h]
  · intro j ps hok hcr hmem
    unfold convertPDFToImages at hok
    cases h : cp 1 <;> rw [h] at hok
    case throws msg => exact Except.noConfusion hok
    case noBuffer => exact Except.noConfusion hok
    case ok =>
      have hps : rasterPages cp cr = ps := Except.ok.inj hok
      subst hps
      unfold rasterPages at hmem
      rw [List.mem_insertionSort] at hmem
      obtain ⟨a, _, ha⟩ := List.mem_filterMap.mp hmem
      unfold processPage at ha
      cases hcra : cr a <;> rw [hcra] at ha
      case throws m => exact Option.noConfusion ha
      case noBuffer => exact Option.noConfusion ha
      case ok =>
        have haj : a = j := Option.some.inj ha
        subst haj
        exact hcr hcra

/-- C10 (witness): the instance with pages 1–3 probed and page 2
failing in the batched round, where page 2 is dropped and the result is
the non-contiguous `[1, 3]`. -/
theorem claimC10_witness :
    convertPDFToImages cpC10 crC10 = Except.ok [1, 3] ∧
    crC10 2 ≠ ConvertResult.ok ∧ 2 ∉ ([1, 3] : List ℕ) :=
  ⟨by decide, by decide,
    (claimC10 cpC10 crC10).2.1 2 [1, 3] (by decide) (by decide)⟩

/-- C6: every successfully rasterized page yields exactly one
`PageResult` (failed recognition yields the confidence-0 placeholder
rather than dropping the page), so for `N` rasterized pages the result
has `pages.length = N` and `metadata.totalPages = N`. -/
theorem claimC6 (cp cr : ℕ → ConvertResult) (oc : ℕ → FetchOutcome) (ps : List ℕ)
    (h : convertPDFToImages cp cr = Except.ok ps) :
    (processPages ps oc).pages.length = ps.length ∧
    (processPages ps oc).metadata.totalPages = (processPages ps oc).pages.length := by
  have hlen : (processPages ps oc).pages.length = ps.length := by
    have hperm := sortPages_perm (processBatches oc ps.length ps)
    have : (processPages ps oc).pages = sortPages (processBatches oc ps.length ps) := rfl
    rw [this, hperm.length_eq, processBatches_eq_map oc ps.length ps (le_refl _),
      List.length_map]
  exact ⟨hlen, rfl⟩

/-- C6 (witness): the C10 instance rasterizes pages `[1, 3]`. -/
theorem claimC6_witness :
    convertPDFToImages cpC10 crC10 = Except.ok [1, 3] ∧
    ((processPages [1, 3] (fun _ => FetchOutcome.transportError "fetch failed")).pages.length =
        ([1, 3] : List ℕ).length ∧
      (processPages [1, 3] (fun _ => FetchOutcome.transportError "fetch failed")).metadata.totalPages =
        (processPages [1, 3] (fun _ => FetchOutcome.transportError "fetch failed")).pages.length) :=
  ⟨by decide, claimC6 cpC10 crC10 _ [1, 3] (by decide)⟩

theorem progressFrames_countP_isTerminal (l : List ℚ) :
    (progressFrames l).countP isTerminal = 0 := by
  induction l with
  | nil => rfl
  | cons q l ih =>
    simp only [progressFrames, List.map_cons, List.countP_cons, isTerminal] at *
    simpa using ih

theorem progressFrames_countP_isComplete (l : List ℚ) :
    (progressFrames l).countP isCompleteEvent = 0 := by
  induction l with
  | nil => rfl
  | cons q l ih =>
    simp only [progressFrames, List.map_cons, List.countP_cons, isCompleteEvent] at *
    simpa using ih

/-- C5: for every request whose stream opens, exactly one terminal
event (`complete` or `error`) is written, it is the stream's last
event, and — in particular — when rasterization yields zero pages the
stream consists of progress frames followed by exactly one `error`
event, and a `complete` event is never sent. -/
theorem claimC5 (cp cr : ℕ → ConvertResult) (oc : ℕ → FetchOutcome) :
    ((processOCR cp cr oc).countP isTerminal = 1 ∧
      ∃ e, (processOCR cp cr oc).getLast? = some e ∧ isTerminal e = true) ∧
    (cp 1 = ConvertResult.ok → rasterPages cp cr = [] →
      processOCR cp cr oc =
        Event.progress 0 :: (progressFrames (convertEventsOk (probe cp)) ++
          [Event.error "No pages could be processed from the PDF"]) ∧
      (processOCR cp cr oc).countP isCompleteEvent = 0) := by
  constructor
  · unfold processOCR
    cases hconv : convertPDFToImages cp cr with
    | error msg =>
      refine ⟨?_, Event.error msg, ?_, rfl⟩
      · simp [List.countP_cons, List.countP_append, progressFrames_countP_isTerminal, isTerminal]
      · rw [show (Event.progress 0 :: (progressFrames [10, 20] ++ [Event.error msg])) =
            (Event.progress 0 :: progressFrames [10, 20]) ++ [Event.error msg] from rfl]
        exact List.getLast?_concat _
    | ok pages =>
      by_cases hemp : pages.isEmpty = true
      · refine ⟨?_, Event.error "No pages could be processed from the PDF", ?_, rfl⟩
        · simp [hemp, List.countP_cons, List.countP_append,
            progressFrames_countP_isTerminal, isTerminal]
        · dsimp only
          rw [if_pos hemp, ← List.cons_append]
          exact List.getLast?_concat _
      · refine ⟨?_, Event.complete (processPages pages oc), ?_, rfl⟩
        · simp [hemp, List.countP_cons, List.countP_append,
            progressFrames_countP_isTerminal, isTerminal]
        · dsimp only
          rw [if_neg hemp, ← List.cons_append]
          exact List.getLast?_concat _
  · intro h1 hempty
    have hconv : convertPDFToImages cp cr = Except.ok [] := by
      unfold convertPDFToImages
      rw [h1, hempty]
    constructor
    · unfold processOCR
      rw [hconv]
      rfl
    · unfold processOCR
      rw [hconv]
      simp [List.countP_cons, List.countP_append, progressFrames_countP_isComplete,
        isCompleteEvent]

/-- C5 (witness): the zero-page instance — page 1 probes but every
batched conversion yields no buffer. -/
theorem claimC5_witness :
    cpC5 1 = ConvertResult.ok ∧ rasterPages cpC5 crC5 = [] ∧
    (((processOCR cpC5 crC5 ocC5).countP isTerminal = 1 ∧
      ∃ e, (processOCR cpC5 crC5 ocC5).getLast? = some e ∧ isTerminal e = true) ∧
    (cpC5 1 = ConvertResult.ok → rasterPages cpC5 crC5 = [] →
      processOCR cpC5 crC5 ocC5 =
        Event.progress 0 :: (progressFrames (convertEventsOk (probe cpC5)) ++
          [Event.error "No pages could be processed from the PDF"]) ∧
      (processOCR cpC5 crC5 ocC5).countP isCompleteEvent = 0)) :=
  ⟨by decide, by decide, claimC5 cpC5 crC5 ocC5⟩

theorem jsRound_mono {a b : ℚ} (h : a ≤ b) : jsRound a ≤ jsRound b :=
  Int.floor_le_floor (by linarith)

theorem jsRound_natCast (n : ℕ) : jsRound (n : ℚ) = n := by
  unfold jsRound
  rw [Int.floor_eq_iff]
  constructor
  · push_cast
    linarith
  · push_cast
    linarith

theorem chain'_map_jsRound {l : List ℚ} (h : List.Chain' (· ≤ ·) l) :
    List.Chain' (· ≤ ·) (l.map jsRound) :=
  (List.chain'_map jsRound).mpr (h.imp fun _ _ hab => jsRound_mono hab)

theorem mem_of_getLast? {α : Type _} : ∀ {l : List α} {a : α}, l.getLast? = some a → a ∈ l
  | [], _, h => by cases h
  | [b], a, h => by
    rw [show ([b] : List α).getLast? = some b from rfl] at h
    simp [Option.some.inj h]
  | _ :: c :: l, a, h => by
    rw [List.getLast?_cons_cons] at h
    exact List.mem_cons_of_mem _ (mem_of_getLast? h)

theorem qdiv_le_qdiv {a b : ℚ} (N : ℕ) (h : a ≤ b) : a / (N : ℚ) ≤ b / (N : ℚ) := by
  rcases Nat.eq_zero_or_pos N with h0 | hpos
  · subst h0
    simp
  · exact (div_le_div_right (by exact_mod_cast hpos)).mpr h

theorem qdiv_le_one (i N : ℕ) (h : i ≤ N) : (i : ℚ) / (N : ℚ) ≤ 1 := by
  rcases Nat.eq_zero_or_pos N with h0 | hpos
  · subst h0
    simp [Nat.le_zero.mp h]
  · exact (div_le_one (by exact_mod_cast hpos)).mpr (by exact_mod_cast h)

theorem rasterVals_head_eq (N : ℕ) :
    ∀ (fuel i : ℕ) {x : ℚ}, (rasterVals N fuel i).head? = some x →
      x = 30 + ((i : ℚ) / (N : ℚ)) * 50
  | 0, _, _, h => by cases h
  | fuel + 1, i, x, h => by
    unfold rasterVals at h
    split at h
    · exact (Option.some.inj h).symm
    · cases h

theorem rasterVals_chain (N : ℕ) :
    ∀ (fuel i : ℕ), List.Chain' (· ≤ ·) (rasterVals N fuel i)
  | 0, _ => List.chain'_nil
  | fuel + 1, i => by
    unfold rasterVals
    split
    · apply List.Chain'.cons' (rasterVals_chain N fuel (i + 5))
      intro y hy
      rw [rasterVals_head_eq N fuel (i + 5) (Option.mem_def.mp hy)]
      have hdiv : ((i : ℚ)) / (N : ℚ) ≤ ((i + 5 : ℕ) : ℚ) / (N : ℚ) :=
        qdiv_le_qdiv N (by push_cast; linarith)
      have := mul_le_mul_of_nonneg_right hdiv (by norm_num : (0:ℚ) ≤ 50)
      linarith
    · exact List.chain'_nil

theorem rasterVals_mem_bounds (N : ℕ) :
    ∀ (fuel i : ℕ), ∀ x ∈ rasterVals N fuel i, 30 ≤ x ∧ x ≤ 80
  | 0, i, x, hx => absurd hx (List.not_mem_nil x)
  | fuel + 1, i, x, hx => by
    unfold rasterVals at hx
    split at hx
    case isTrue hiN =>
      rcases List.mem_cons.mp hx with hx | hx
      · subst hx
        constructor
        · have : (0:ℚ) ≤ ((i : ℚ) / (N : ℚ)) * 50 := by positivity
          linarith
        · have hle : (i : ℚ) / (N : ℚ) ≤ 1 := qdiv_le_one i N hiN
          nlinarith
      · exact rasterVals_mem_bounds N fuel (i + 5) x hx
    case isFalse => exact absurd hx (List.not_mem_nil x)

theorem convertEventsOk_chain (N : ℕ) : List.Chain' (· ≤ ·) (convertEventsOk N) := by
  unfold convertEventsOk rasterProgress
  apply List.chain'_append.mpr
  refine ⟨?_, List.chain'_singleton _, ?_⟩
  · apply List.chain'_append.mpr
    refine ⟨?_, rasterVals_chain N N 1, ?_⟩
    · refine List.chain'_cons.mpr ⟨by norm_num, List.chain'_cons.mpr ⟨by norm_num,
        List.chain'_singleton _⟩⟩
    · intro x hx y hy
      have hx30 : x = 30 := by
        have := Option.mem_def.mp hx
        rw [show ([10, 20, 30] : List ℚ).getLast? = some 30 from rfl] at this
        exact (Option.some.inj this).symm
      subst hx30
      rw [rasterVals_head_eq N N 1 (Option.mem_def.mp hy)]
      have : (0:ℚ) ≤ (((1:ℕ) : ℚ) / (N : ℚ)) * 50 := by positivity
      linarith
  · intro x hx y hy
    have hy85 : y = 85 := by
      have := Option.mem_def.mp hy
      rw [show ([85] : List ℚ).head? = some 85 from rfl] at this
      exact (Option.some.inj this).symm
    subst hy85
    have hxmem : x ∈ [10, 20, 30] ++ rasterVals N N 1 :=
      mem_of_getLast? (Option.mem_def.mp hx)
    rcases List.mem_append.mp hxmem with hx' | hx'
    · simp only [List.mem_cons, List.mem_singleton, List.not_mem_nil, or_false] at hx'
      rcases hx' with rfl | rfl | rfl <;> norm_num
    · linarith [(rasterVals_mem_bounds N N 1 x hx').2]

theorem convertEventsOk_le (N : ℕ) : ∀ q ∈ convertEventsOk N, q ≤ 85 := by
  intro q hq
  unfold convertEventsOk rasterProgress at hq
  rcases List.mem_append.mp hq with hq | hq
  · rcases List.mem_append.mp hq with hq | hq
    · simp only [List.mem_cons, List.mem_singleton, List.not_mem_nil, or_false] at hq
      rcases hq with rfl | rfl | rfl <;> norm_num
    · linarith [(rasterVals_mem_bounds N N 1 q hq).2]
  · simp only [List.mem_singleton, List.mem_cons, List.not_mem_nil, or_false] at hq
    subst hq
    norm_num

theorem replicate_head_append {α : Type _} (k : ℕ) (hk : k ≠ 0) (v : α) (rest : List α) :
    (List.replicate k v ++ rest).head? = some v := by
  cases k with
  | zero => exact absurd rfl hk
  | succ k => rfl

theorem replicate_getLast {α : Type _} (k : ℕ) (hk : k ≠ 0) (v : α) :
    (List.replicate k v).getLast? = some v := by
  rw [List.getLast?_replicate]
  simp [hk]

theorem chain'_replicate_le (k : ℕ) (v : ℚ) : List.Chain' (· ≤ ·) (List.replicate k v) := by
  induction k with
  | zero => exact List.chain'_nil
  | succ k ih =>
    rw [List.replicate_succ]
    apply List.Chain'.cons' ih
    intro y hy
    cases k with
    | zero => simp at hy
    | succ k =>
      have := Option.mem_def.mp hy
      rw [show (List.replicate (k + 1) v).head? = some v from rfl] at this
      rw [← Option.some.inj this]

theorem recogVals_head_eq (M : ℕ) :
    ∀ (fuel i : ℕ) {x : ℚ}, (recogVals M fuel i).head? = some x →
      x = 5 + ((i : ℚ) / (M : ℚ)) * 80
  | 0, _, _, h => by cases h
  | fuel + 1, i, x, h => by
    unfold recogVals at h
    split at h
    case isTrue hiM =>
      rw [replicate_head_append _ (by omega) _ _] at h
      exact (Option.some.inj h).symm
    case isFalse => cases h

theorem recogVals_chain (M : ℕ) :
    ∀ (fuel i : ℕ), List.Chain' (· ≤ ·) (recogVals M fuel i)
  | 0, _ => List.chain'_nil
  | fuel + 1, i => by
    unfold recogVals
    split
    case isTrue hiM =>
      apply List.chain'_append.mpr
      refine ⟨chain'_replicate_le _ _, recogVals_chain M fuel (i + 3), ?_⟩
      intro x hx y hy
      have hxv : x = 5 + ((i : ℚ) / (M : ℚ)) * 80 := by
        have := Option.mem_def.mp hx
        rw [replicate_getLast _ (by omega) _] at this
        exact (Option.some.inj this).symm
      subst hxv
      rw [recogVals_head_eq M fuel (i + 3) (Option.mem_def.mp hy)]
      have hdiv : ((i : ℚ)) / (M : ℚ) ≤ ((i + 3 : ℕ) : ℚ) / (M : ℚ) :=
        qdiv_le_qdiv M (by push_cast; linarith)
      have := mul_le_mul_of_nonneg_right hdiv (by norm_num : (0:ℚ) ≤ 80)
      linarith
    case isFalse => exact List.chain'_nil

theorem recogVals_mem_bounds (M : ℕ) :
    ∀ (fuel i : ℕ), ∀ x ∈ recogVals M fuel i, 5 ≤ x ∧ x ≤ 85
  | 0, i, x, hx => absurd hx (List.not_mem_nil x)
  | fuel + 1, i, x, hx => by
    unfold recogVals at hx
    split at hx
    case isTrue hiM =>
      rcases List.mem_append.mp hx with hx' | hx'
      · have hxv : x = 5 + ((i : ℚ) / (M : ℚ)) * 80 := List.eq_of_mem_replicate hx'
        subst hxv
        constructor
        · have : (0:ℚ) ≤ ((i : ℚ) / (M : ℚ)) * 80 := by positivity
          linarith
        · have h1 : (i : ℚ) / (M : ℚ) ≤ 1 := qdiv_le_one i M (by omega)
          nlinarith
      · exact recogVals_mem_bounds M fuel (i + 3) x hx'
    case isFalse => exact absurd hx (List.not_mem_nil x)

theorem processPagesProgress_chain (M : ℕ) :
    List.Chain' (· ≤ ·) (processPagesProgress M) := by
  unfold processPagesProgress recogProgress
  apply List.chain'_append.mpr
  refine ⟨?_, List.chain'_cons.mpr ⟨by norm_num, List.chain'_singleton _⟩, ?_⟩
  · apply List.chain'_append.mpr
    refine ⟨List.chain'_singleton _, recogVals_chain M M 0, ?_⟩
    intro x hx y hy
    have hx5 : x = 5 := by
      have := Option.mem_def.mp hx
      rw [show ([5] : List ℚ).getLast? = some 5 from rfl] at this
      exact (Option.some.inj this).symm
    subst hx5
    rw [recogVals_head_eq M M 0 (Option.mem_def.mp hy)]
    have : (0:ℚ) ≤ (((0:ℕ) : ℚ) / (M : ℚ)) * 80 := by positivity
    linarith
  · intro x hx y hy
    have hy90 : y = 90 := by
      have := Option.mem_def.mp hy
      rw [show ([90, 100] : List ℚ).head? = some 90 from rfl] at this
      exact (Option.some.inj this).symm
    subst hy90
    have hxmem : x ∈ [5] ++ recogVals M M 0 := mem_of_getLast? (Option.mem_def.mp hx)
    rcases List.mem_append.mp hxmem with hx' | hx'
    · simp only [List.mem_singleton, List.mem_cons, List.not_mem_nil, or_false] at hx'
      subst hx'
      norm_num
    · linarith [(recogVals_mem_bounds M M 0 x hx').2]

theorem progressFrames_count100_zero (l : List ℚ) (hb : ∀ q ∈ l, q ≤ 85) :
    (progressFrames l).countP isProgress100 = 0 := by
  rw [List.countP_eq_zero]
  intro e he
  obtain ⟨q, hq, rfl⟩ := List.mem_map.mp he
  have h85 : jsRound q ≤ 85 := by
    calc jsRound q ≤ jsRound ((85 : ℕ) : ℚ) := jsRound_mono (by push_cast; exact hb q hq)
    _ = 85 := by rw [jsRound_natCast]; rfl
  simp only [isProgress100, beq_iff_eq]
  omega

theorem processPagesProgress_count100 (M : ℕ) :
    (progressFrames (processPagesProgress M)).countP isProgress100 = 1 := by
  unfold processPagesProgress recogProgress progressFrames
  rw [List.map_append, List.map_append, List.countP_append, List.countP_append]
  have h5 : (([5] : List ℚ).map fun q => Event.progress (jsRound q)).countP isProgress100 = 0 := by
    apply progressFrames_count100_zero
    intro q hq
    simp only [List.mem_singleton, List.mem_cons, List.not_mem_nil, or_false] at hq
    subst hq
    norm_num
  have hrec : ((recogVals M M 0).map fun q => Event.progress (jsRound q)).countP
      isProgress100 = 0 :=
    progressFrames_count100_zero _ fun q hq => (recogVals_mem_bounds M M 0 q hq).2
  have h90 : jsRound (90 : ℚ) = 90 := by
    rw [show (90 : ℚ) = ((90 : ℕ) : ℚ) by norm_num, jsRound_natCast]
    rfl
  have h100 : jsRound (100 : ℚ) = 100 := by
    rw [show (100 : ℚ) = ((100 : ℕ) : ℚ) by norm_num, jsRound_natCast]
    rfl
  have htail : (([90, 100] : List ℚ).map fun q => Event.progress (jsRound q)).countP
      isProgress100 = 1 := by
    simp [List.countP_cons, isProgress100, h90, h100]
  rw [h5, hrec, htail]

/-- C2 (amended): progress percentages are non-decreasing within the
rasterization phase (including the initial 0) and within the
recognition phase, and a terminal 100 is emitted exactly once, as the
last progress frame, immediately before the `complete` event.  Across
the phase boundary, however, progress drops: rasterization ends at 85
and recognition restarts at 5 (see the counterexample), so the
whole-pipeline sequence is not non-decreasing. -/
theorem claimC2 (cp cr : ℕ → ConvertResult) (oc : ℕ → FetchOutcome)
    (h1 : cp 1 = ConvertResult.ok) (h2 : rasterPages cp cr ≠ []) :
    processOCR cp cr oc =
      (Event.progress 0 :: (progressFrames (convertEventsOk (probe cp)) ++
        progressFrames ([5] ++ recogProgress (rasterPages cp cr).length ++ [90]))) ++
      [Event.progress 100, Event.complete (processPages (rasterPages cp cr) oc)] ∧
    List.Chain' (· ≤ ·) ((0 : ℤ) :: (convertEventsOk (probe cp)).map jsRound) ∧
    List.Chain' (· ≤ ·) ((processPagesProgress (rasterPages cp cr).length).map jsRound) ∧
    (processOCR cp cr oc).countP isProgress100 = 1 := by
  have hconv : convertPDFToImages cp cr = Except.ok (rasterPages cp cr) := by
    unfold convertPDFToImages
    rw [h1]
  have hne : ¬ (rasterPages cp cr).isEmpty = true := by
    simp only [List.isEmpty_iff]
    exact h2
  have h100 : jsRound (100 : ℚ) = 100 := by
    rw [show (100 : ℚ) = ((100 : ℕ) : ℚ) by norm_num, jsRound_natCast]
    rfl
  refine ⟨?_, ?_, ?_, ?_⟩
  · unfold processOCR
    rw [hconv]
    dsimp only
    rw [if_neg hne]
    simp only [processPagesProgress, recogProgress, progressFrames, List.map_append,
      List.map_cons, List.map_nil, List.append_assoc, List.cons_append, List.nil_append, h100]
  · apply List.Chain'.cons' (chain'_map_jsRound (convertEventsOk_chain (probe cp)))
    intro y hy
    have hy10 : y = jsRound 10 := by
      have := Option.mem_def.mp hy
      rw [show ((convertEventsOk (probe cp)).map jsRound).head? = some (jsRound 10)
        from rfl] at this
      exact (Option.some.inj this).symm
    subst hy10
    rw [show (10 : ℚ) = ((10 : ℕ) : ℚ) by norm_num, jsRound_natCast]
    norm_num
  · exact chain'_map_jsRound (processPagesProgress_chain _)
  · unfold processOCR
    rw [hconv]
    dsimp only
    rw [if_neg hne]
    rw [List.countP_cons, List.countP_append, List.countP_append,
      progressFrames_count100_zero _ (convertEventsOk_le (probe cp)),
      processPagesProgress_count100]
    simp [isProgress100]

/-- C2 (witness): the one-page instance with a successful recognition
call. -/
theorem claimC2_witness :
    cpC2 1 = ConvertResult.ok ∧ rasterPages cpC2 crC2 ≠ [] ∧
    (processOCR cpC2 crC2 ocC2 =
      (Event.progress 0 :: (progressFrames (convertEventsOk (probe cpC2)) ++
        progressFrames ([5] ++ recogProgress (rasterPages cpC2 crC2).length ++ [90]))) ++
      [Event.progress 100, Event.complete (processPages (rasterPages cpC2 crC2) ocC2)] ∧
    List.Chain' (· ≤ ·) ((0 : ℤ) :: (convertEventsOk (probe cpC2)).map jsRound) ∧
    List.Chain' (· ≤ ·) ((processPagesProgress (rasterPages cpC2 crC2).length).map jsRound) ∧
    (processOCR cpC2 crC2 ocC2).countP isProgress100 = 1) :=
  ⟨by decide, by decide, claimC2 cpC2 crC2 ocC2 (by decide) (by decide)⟩

/-- C2 (counterexample): for a one-page request that completes, the
emitted progress sequence is 0, 10, 20, 30, 80, 85, 5, 5, 90, 100 —
rasterization ends at 85, recognition restarts at 5 — which is not
non-decreasing, so the whole-pipeline monotonicity stated by the claim
fails. -/
theorem claimC2_counterexample :
    progressValues (processOCR cpC2 crC2 ocC2) = [0, 10, 20, 30, 80, 85, 5, 5, 90, 100] ∧
    ¬ List.Chain' (· ≤ ·) ([0, 10, 20, 30, 80, 85, 5, 5, 90, 100] : List ℤ) := by
  constructor
  · have hconv : convertPDFToImages cpC2 crC2 = Except.ok [1] := by decide
    have hprobe : probe cpC2 = 1 := by decide
    have hX : (30 + ((1 : ℕ) : ℚ) / ((1 : ℕ) : ℚ) * 50) = 80 := by norm_num
    have hrv : rasterVals 1 1 1 = [80] := by
      rw [show rasterVals 1 1 1 = [30 + ((1 : ℕ) : ℚ) / ((1 : ℕ) : ℚ) * 50] from rfl, hX]
    have hY : (5 + ((0 : ℕ) : ℚ) / ((1 : ℕ) : ℚ) * 80) = 5 := by norm_num
    have hrec : recogVals 1 1 0 = [5] := by
      rw [show recogVals 1 1 0 = [5 + ((0 : ℕ) : ℚ) / ((1 : ℕ) : ℚ) * 80] from rfl, hY]
    have j5 : jsRound (5 : ℚ) = 5 := by
      rw [show (5 : ℚ) = ((5 : ℕ) : ℚ) by norm_num, jsRound_natCast]; rfl
    have j10 : jsRound (10 : ℚ) = 10 := by
      rw [show (10 : ℚ) = ((10 : ℕ) : ℚ) by norm_num, jsRound_natCast]; rfl
    have j20 : jsRound (20 : ℚ) = 20 := by
      rw [show (20 : ℚ) = ((20 : ℕ) : ℚ) by norm_num, jsRound_natCast]; rfl
    have j30 : jsRound (30 : ℚ) = 30 := by
      rw [show (30 : ℚ) = ((30 : ℕ) : ℚ) by norm_num, jsRound_natCast]; rfl
    have j80 : jsRound (80 : ℚ) = 80 := by
      rw [show (80 : ℚ) = ((80 : ℕ) : ℚ) by norm_num, jsRound_natCast]; rfl
    have j85 : jsRound (85 : ℚ) = 85 := by
      rw [show (85 : ℚ) = ((85 : ℕ) : ℚ) by norm_num, jsRound_natCast]; rfl
    have j90 : jsRound (90 : ℚ) = 90 := by
      rw [show (90 : ℚ) = ((90 : ℕ) : ℚ) by norm_num, jsRound_natCast]; rfl
    have j100 : jsRound (100 : ℚ) = 100 := by
      rw [show (100 : ℚ) = ((100 : ℕ) : ℚ) by norm_num, jsRound_natCast]; rfl
    unfold processOCR
    rw [hconv]
    dsimp only
    rw [if_neg (by simp)]
    rw [hprobe]
    unfold convertEventsOk rasterProgress processPagesProgress recogProgress
    simp only [List.length_singleton]
    rw [hrv, hrec]
    simp [progressValues, progressFrames, j5, j10, j20, j30, j80, j85, j90, j100]
  · intro h
    simp only [List.chain'_cons, List.chain'_singleton] at h
    omega

theorem filterMap_processPage (cr : ℕ → ConvertResult) :
    ∀ l : List ℕ, l.filterMap (processPage cr) =
      l.filter fun a => decide (cr a = ConvertResult.ok)
  | [] => rfl
  | a :: l => by
    rw [List.filterMap_cons, List.filter_cons, filterMap_processPage cr l]
    unfold processPage
    cases h : cr a <;> simp [h]

/-- The rasterizer always returns pairwise-distinct page numbers: the
input distinctness hypothesis of the aggregation theorems holds for
every pipeline input. -/
theorem rasterPages_nodup (cp cr : ℕ → ConvertResult) : (rasterPages cp cr).Nodup := by
  unfold rasterPages
  apply (List.perm_insertionSort _ _).nodup_iff.mpr
  rw [filterMap_processPage]
  exact List.Nodup.filter _ (by simp [List.nodup_range'])
